import Mathlib

set_option maxRecDepth 100000

/-!
Verification of the DNS query-building core of `src/main.rs`.

Bytes are modelled as natural numbers (each value produced is < 256).
A Rust `String` / `&str` is modelled by its UTF-8 byte sequence, a
`List Nat`.  The only randomness, the query id, is passed explicitly.
-/

/-- Big-endian bytes of a `u16`, modelling Rust `u16::to_be_bytes`.
The argument is reduced mod 2^16 implicitly by taking each byte mod 256. -/
def toBeBytes16 (n : Nat) : List Nat := [n / 256 % 256, n % 256]

/-- The `DnsHeader` struct of `src/main.rs` (six `u16` fields). -/
structure DnsHeader where
  id : Nat
  flags : Nat
  num_questions : Nat
  num_answers : Nat
  num_authorities : Nat
  num_additionals : Nat

/-- `DnsHeader::to_bytes`: the six fields, in declaration order, each as
2 big-endian bytes. -/
def DnsHeader.to_bytes (h : DnsHeader) : List Nat :=
  toBeBytes16 h.id ++ toBeBytes16 h.flags ++ toBeBytes16 h.num_questions ++
    toBeBytes16 h.num_answers ++ toBeBytes16 h.num_authorities ++
    toBeBytes16 h.num_additionals

/-- The UTF-8 byte value of the `.` delimiter.  Since `.` is an ASCII byte
and UTF-8 continuation/lead bytes are ≥ 0x80, splitting the UTF-8 bytes on
46 agrees with Rust `str::split('.')` on the characters. -/
def dotByte : Nat := 46

/-- Rust `str::split('.')` on the byte sequence: the ordered list of
(possibly empty) chunks between occurrences of byte 46.  Like Rust's
`split`, the result is never the empty list (an empty input gives one
empty chunk). -/
def splitDots : List Nat → List (List Nat)
  | [] => [[]]
  | b :: rest =>
    if b = dotByte then [] :: splitDots rest
    else
      match splitDots rest with
      | [] => [[b]]
      | l :: ls => (b :: l) :: ls

/-- UTF-8 bytes of the Unicode code point `c`, for `c < 2048` (the range
reachable from a Rust `u8 as char`, which is always < 256): a single byte
below 128, and a two-byte sequence 0xC0+hi, 0x80+lo otherwise. -/
def charUtf8 (c : Nat) : List Nat :=
  if c < 128 then [c] else [192 + c / 64, 128 + c % 64]

/-- One label's contribution inside `encode_dns_name`: the source inserts
`substr.len() as u8 as char` at the front of the label `String` and takes
its UTF-8 bytes, so the emitted length mark is the UTF-8 encoding of the
code point `len % 256`, followed by the label's own bytes. -/
def encodeLabel (l : List Nat) : List Nat :=
  charUtf8 (l.length % 256) ++ l

/-- `DomainName::encode_dns_name`: split on `.`, emit each label prefixed
by its length mark, then append the terminating zero byte. -/
def DomainName.encode_dns_name (s : List Nat) : List Nat :=
  ((splitDots s).map encodeLabel).flatten ++ [0]

/-- The `DnsQuestion` struct of `src/main.rs` (fields in declaration
order: name, class, type). -/
structure DnsQuestion where
  name : List Nat
  «class» : Nat
  type : Nat

/-- `DnsQuestion::to_bytes`: encoded name, then type as 2 big-endian
bytes, then class as 2 big-endian bytes. -/
def DnsQuestion.to_bytes (q : DnsQuestion) : List Nat :=
  DomainName.encode_dns_name q.name ++ toBeBytes16 q.type ++ toBeBytes16 q.«class»

/-- `const CLASS_IN: u16 = 1`. -/
def CLASS_IN : Nat := 1

/-- `const TYPE_A: u16 = 1`. -/
def TYPE_A : Nat := 1

/-- `const RECURSION_DESIRED: u16 = 1 << 8`. -/
def RECURSION_DESIRED : Nat := 256

/-- `build_query`, with the random id made an explicit argument: header
(id, recursion-desired flags, one question, zero other counts) followed by
the question record for the given name, `CLASS_IN`, and the given type. -/
def build_query (id : Nat) (domain_name : List Nat) (record_type : Nat) : List Nat :=
  let header : DnsHeader :=
    { id := id, flags := RECURSION_DESIRED, num_questions := 1,
      num_answers := 0, num_authorities := 0, num_additionals := 0 }
  let question : DnsQuestion :=
    { name := domain_name, «class» := CLASS_IN, type := record_type }
  header.to_bytes ++ question.to_bytes

/-- Fuel-bounded body of the round-trip claim's decoding procedure:
read one length byte, then that many bytes as a label, and repeat until a
zero length byte; `none` on truncated input or exhausted fuel. -/
def readLabelsAux : Nat → List Nat → Option (List (List Nat))
  | _, [] => none
  | 0, _ :: _ => none
  | fuel + 1, n :: rest =>
    if n = 0 then some []
    else if rest.length < n then none
    else
      match readLabelsAux fuel (rest.drop n) with
      | none => none
      | some ls => some (rest.take n :: ls)

/-- The decoding procedure of the round-trip claim: repeatedly read one
length byte and then that many bytes, until a zero length byte; `none` on
truncated input.  Fuel `bytes.length` never runs out, since every
recursive step consumes at least two bytes and spends one fuel. -/
def readLabels (bytes : List Nat) : Option (List (List Nat)) :=
  readLabelsAux bytes.length bytes

/-- C7: encoding "google.com" yields exactly
[0x06, g,o,o,g,l,e, 0x03, c,o,m, 0x00]. -/
theorem encode_google_com :
    DomainName.encode_dns_name [103, 111, 111, 103, 108, 101, 46, 99, 111, 109] =
      [6, 103, 111, 111, 103, 108, 101, 3, 99, 111, 109, 0] := by decide

/-- C8: "a..b" contains an empty label, encoded as a bare 0x00 length byte
between the labels "a" and "b"; the empty input degenerates to one empty
label, encoding to 0x00 0x00 (empty label plus terminator). -/
theorem encode_empty_labels :
    splitDots [97, 46, 46, 98] = [[97], [], [98]] ∧
    DomainName.encode_dns_name [97, 46, 46, 98] = [1, 97, 0, 1, 98, 0] ∧
    splitDots [] = [[]] ∧
    DomainName.encode_dns_name [] = [0, 0] := by decide

/-- C1: for every id, `build_query "www.example.com" TYPE_A` minus its
first 2 bytes is the fixed sequence 0100 0001 0000 0000 0000 03 "www" 07
"example" 03 "com" 00 0001 0001. -/
theorem build_query_www_example_com (id : Nat) :
    (build_query id
        [119, 119, 119, 46, 101, 120, 97, 109, 112, 108, 101, 46, 99, 111, 109]
        TYPE_A).drop 2 =
      [1, 0, 0, 1, 0, 0, 0, 0, 0, 0,
       3, 119, 119, 119,
       7, 101, 120, 97, 109, 112, 108, 101,
       3, 99, 111, 109, 0,
       0, 1, 0, 1] := by
  simp [build_query, DnsHeader.to_bytes, DnsQuestion.to_bytes, DomainName.encode_dns_name,
    toBeBytes16, RECURSION_DESIRED, CLASS_IN, TYPE_A, splitDots, encodeLabel, charUtf8, dotByte]

/-- C5: for in-range (`u16`) fields, the header serializes to exactly 12
bytes: the six fields in declaration order, each as high byte then low
byte. -/
theorem header_to_bytes_layout (h : DnsHeader)
    (h1 : h.id < 65536) (h2 : h.flags < 65536) (h3 : h.num_questions < 65536)
    (h4 : h.num_answers < 65536) (h5 : h.num_authorities < 65536)
    (h6 : h.num_additionals < 65536) :
    h.to_bytes.length = 12 ∧
    h.to_bytes =
      [h.id / 256, h.id % 256, h.flags / 256, h.flags % 256,
       h.num_questions / 256, h.num_questions % 256,
       h.num_answers / 256, h.num_answers % 256,
       h.num_authorities / 256, h.num_authorities % 256,
       h.num_additionals / 256, h.num_additionals % 256] := by
  have e1 : h.id / 256 % 256 = h.id / 256 := Nat.mod_eq_of_lt (by omega)
  have e2 : h.flags / 256 % 256 = h.flags / 256 := Nat.mod_eq_of_lt (by omega)
  have e3 : h.num_questions / 256 % 256 = h.num_questions / 256 :=
    Nat.mod_eq_of_lt (by omega)
  have e4 : h.num_answers / 256 % 256 = h.num_answers / 256 :=
    Nat.mod_eq_of_lt (by omega)
  have e5 : h.num_authorities / 256 % 256 = h.num_authorities / 256 :=
    Nat.mod_eq_of_lt (by omega)
  have e6 : h.num_additionals / 256 % 256 = h.num_additionals / 256 :=
    Nat.mod_eq_of_lt (by omega)
  refine ⟨by simp [DnsHeader.to_bytes, toBeBytes16], ?_⟩
  simp [DnsHeader.to_bytes, toBeBytes16, e1, e2, e3, e4, e5, e6]

/-- C5 witness at a concrete header. -/
theorem header_to_bytes_layout_witness :
    (DnsHeader.to_bytes ⟨1, 256, 3, 4, 5, 65535⟩).length = 12 ∧
    DnsHeader.to_bytes ⟨1, 256, 3, 4, 5, 65535⟩ =
      [1 / 256, 1 % 256, 256 / 256, 256 % 256, 3 / 256, 3 % 256,
       4 / 256, 4 % 256, 5 / 256, 5 % 256, 65535 / 256, 65535 % 256] :=
  header_to_bytes_layout ⟨1, 256, 3, 4, 5, 65535⟩ (by decide) (by decide) (by decide)
    (by decide) (by decide) (by decide)

/-- C6: for in-range (`u16`) type and class, a question serializes as the
encoded name followed by 4 bytes; the 4 bytes after the name are the type
(big-endian) and then the class (big-endian) — type precedes class. -/
theorem question_to_bytes_layout (q : DnsQuestion)
    (ht : q.type < 65536) (hc : q.«class» < 65536) :
    q.to_bytes.length = (DomainName.encode_dns_name q.name).length + 4 ∧
    q.to_bytes =
      DomainName.encode_dns_name q.name ++
        [q.type / 256, q.type % 256, q.«class» / 256, q.«class» % 256] ∧
    q.to_bytes.drop (DomainName.encode_dns_name q.name).length =
      [q.type / 256, q.type % 256, q.«class» / 256, q.«class» % 256] := by
  have et : q.type / 256 % 256 = q.type / 256 := Nat.mod_eq_of_lt (by omega)
  have ec : q.«class» / 256 % 256 = q.«class» / 256 := Nat.mod_eq_of_lt (by omega)
  have hb : q.to_bytes =
      DomainName.encode_dns_name q.name ++
        [q.type / 256, q.type % 256, q.«class» / 256, q.«class» % 256] := by
    simp [DnsQuestion.to_bytes, toBeBytes16, et, ec]
  refine ⟨?_, hb, ?_⟩
  · rw [hb]; simp
  · rw [hb, List.drop_left]

/-- C6 witness at a concrete question. -/
theorem question_to_bytes_layout_witness :
    (DnsQuestion.to_bytes ⟨[97], 1, 1⟩).length =
      (DomainName.encode_dns_name [97]).length + 4 ∧
    DnsQuestion.to_bytes ⟨[97], 1, 1⟩ =
      DomainName.encode_dns_name [97] ++ [1 / 256, 1 % 256, 1 / 256, 1 % 256] ∧
    (DnsQuestion.to_bytes ⟨[97], 1, 1⟩).drop
        (DomainName.encode_dns_name [97]).length =
      [1 / 256, 1 % 256, 1 / 256, 1 % 256] :=
  question_to_bytes_layout ⟨[97], 1, 1⟩ (by decide) (by decide)

/-- A name containing no `.` byte splits into a single label. -/
theorem splitDots_eq_single (s : List Nat) (h : dotByte ∉ s) : splitDots s = [s] := by
  induction s with
  | nil => rfl
  | cons b rest ih =>
    have hb : ¬ b = dotByte := fun hh => h (hh ▸ List.mem_cons_self b rest)
    have hr : dotByte ∉ rest := fun hh => h (List.mem_cons_of_mem b hh)
    simp [splitDots, hb, ih hr]

/-- C9: a single label of byte length 128–255 is emitted with a two-byte
length mark, the UTF-8 encoding (0xC0 + len / 64, 0x80 + len % 64) of the
code point equal to the length — for length 255 the bytes 0xC3 0xBF —
rather than a single length byte. -/
theorem encode_long_label_two_byte_mark (s : List Nat) (h46 : dotByte ∉ s)
    (hlo : 128 ≤ s.length) (hhi : s.length ≤ 255) :
    DomainName.encode_dns_name s =
      [192 + s.length / 64, 128 + s.length % 64] ++ s ++ [0] ∧
    charUtf8 255 = [195, 191] := by
  have h1 : s.length % 256 = s.length := Nat.mod_eq_of_lt (by omega)
  have h2 : ¬ s.length < 128 := by omega
  refine ⟨?_, by decide⟩
  rw [DomainName.encode_dns_name, splitDots_eq_single s h46]
  simp [encodeLabel, charUtf8, h1, h2]

/-- C9 witness at a 128-byte label. -/
theorem encode_long_label_two_byte_mark_witness :
    DomainName.encode_dns_name (List.replicate 128 97) =
      [192 + (List.replicate 128 (97 : Nat)).length / 64,
       128 + (List.replicate 128 (97 : Nat)).length % 64] ++
        List.replicate 128 97 ++ [0] ∧
    charUtf8 255 = [195, 191] :=
  encode_long_label_two_byte_mark (List.replicate 128 97) (by decide) (by decide)
    (by decide)

/-- Every length mark is at least one byte long. -/
theorem one_le_charUtf8_length (c : Nat) : 1 ≤ (charUtf8 c).length := by
  unfold charUtf8; split <;> simp

/-- Each encoded label contributes at least one byte, so the encoded body
is at least as long as the label list. -/
theorem length_le_flatten_encode (ls : List (List Nat)) :
    ls.length ≤ ((ls.map encodeLabel).flatten).length := by
  induction ls with
  | nil => simp
  | cons l ls ih =>
    have := one_le_charUtf8_length (l.length % 256)
    simp only [List.map_cons, List.flatten_cons, List.length_append, List.length_cons,
      encodeLabel]
    omega

/-- A label of length 1–127 is encoded as its length byte followed by its
bytes. -/
theorem encodeLabel_short (l : List Nat) (h : l.length ≤ 127) :
    encodeLabel l = l.length :: l := by
  have h1 : l.length % 256 = l.length := Nat.mod_eq_of_lt (by omega)
  have h2 : l.length < 128 := by omega
  simp [encodeLabel, charUtf8, h1, h2]

/-- Round-trip over label lists: decoding the encoded body of a label list
whose labels all have length 1–127 recovers the list, for any
sufficiently large fuel. -/
theorem readLabelsAux_encode (ls : List (List Nat)) :
    ∀ fuel, ls.length < fuel →
      (∀ l ∈ ls, 1 ≤ l.length ∧ l.length ≤ 127) →
      readLabelsAux fuel ((ls.map encodeLabel).flatten ++ [0]) = some ls := by
  induction ls with
  | nil =>
    intro fuel hf _
    cases fuel with
    | zero => omega
    | succ f => simp [readLabelsAux]
  | cons l ls ih =>
    intro fuel hf hlab
    obtain ⟨hl1, hl127⟩ := hlab l (List.mem_cons_self l ls)
    cases fuel with
    | zero => omega
    | succ f =>
      have hflat : (((l :: ls).map encodeLabel).flatten ++ [0]) =
          l.length :: (l ++ ((ls.map encodeLabel).flatten ++ [0])) := by
        simp [encodeLabel_short l hl127]
      rw [hflat]
      have hne : ¬ l.length = 0 := by omega
      have hlen : ¬ (l ++ ((ls.map encodeLabel).flatten ++ [0])).length < l.length := by
        simp
      have hf2 : ls.length < f := by simp at hf; omega
      rw [readLabelsAux, if_neg hne, if_neg hlen, List.drop_left,
        ih f hf2 (fun x hx => hlab x (List.mem_cons_of_mem l hx)),
        List.take_left]

/-- C2 (amended): for a name all of whose labels have byte length 1–127,
the claim's decoding procedure applied to `encode_dns_name` recovers
exactly the name's label sequence. -/
theorem readLabels_encode_roundtrip (s : List Nat)
    (h : ∀ l ∈ splitDots s, 1 ≤ l.length ∧ l.length ≤ 127) :
    readLabels (DomainName.encode_dns_name s) = some (splitDots s) := by
  rw [readLabels, DomainName.encode_dns_name]
  apply readLabelsAux_encode (splitDots s) _ ?_ h
  have := length_le_flatten_encode (splitDots s)
  simp only [List.length_append, List.length_cons, List.length_nil]
  omega

/-- C2 (amended) witness at the name "a.b". -/
theorem readLabels_encode_roundtrip_witness :
    readLabels (DomainName.encode_dns_name [97, 46, 98]) =
      some (splitDots [97, 46, 98]) :=
  readLabels_encode_roundtrip [97, 46, 98] (by decide)

/-- C2 counterexample: the round-trip fails as stated for names whose
labels are merely ≤ 255 bytes.  "a..b" (empty label) decodes to a shorter
label list, because the empty label's 0x00 length byte is read as the
terminator; and a single 128-byte label is given a two-byte UTF-8 length
mark, so decoding fails outright. -/
theorem readLabels_encode_roundtrip_fails :
    ((∀ l ∈ splitDots [97, 46, 46, 98], l.length ≤ 255) ∧
      readLabels (DomainName.encode_dns_name [97, 46, 46, 98]) ≠
        some (splitDots [97, 46, 46, 98])) ∧
    ((∀ l ∈ splitDots (List.replicate 128 97), l.length ≤ 255) ∧
      readLabels (DomainName.encode_dns_name (List.replicate 128 97)) ≠
        some (splitDots (List.replicate 128 97))) := by decide

/-- The encoded body of a label list whose labels are all ≤ 127 bytes has
length (sum of label lengths) + (number of labels). -/
theorem flatten_encode_length (ls : List (List Nat))
    (h : ∀ l ∈ ls, l.length ≤ 127) :
    ((ls.map encodeLabel).flatten).length = (ls.map List.length).sum + ls.length := by
  induction ls with
  | nil => simp
  | cons l ls ih =>
    have hl := h l (List.mem_cons_self l ls)
    rw [List.map_cons, List.flatten_cons, List.length_append,
      encodeLabel_short l hl,
      ih (fun x hx => h x (List.mem_cons_of_mem l hx))]
    simp; omega

/-- C3 (amended): for a name all of whose labels have byte length ≤ 127,
the query is 12 header bytes, plus (sum of label lengths + number of
labels + 1 terminator) name bytes, plus 4 type/class bytes. -/
theorem build_query_length (id t : Nat) (s : List Nat)
    (h : ∀ l ∈ splitDots s, l.length ≤ 127) :
    (build_query id s t).length =
      12 + (((splitDots s).map List.length).sum + (splitDots s).length + 1) + 4 := by
  simp only [build_query, DnsHeader.to_bytes, DnsQuestion.to_bytes,
    DomainName.encode_dns_name, toBeBytes16, List.length_append,
    flatten_encode_length (splitDots s) h]
  simp; omega

/-- C3 (amended) witness at the name "a.b". -/
theorem build_query_length_witness :
    (build_query 7 [97, 46, 98] 1).length =
      12 + (((splitDots [97, 46, 98]).map List.length).sum +
        (splitDots [97, 46, 98]).length + 1) + 4 :=
  build_query_length 7 1 [97, 46, 98] (by decide)

/-- C3 counterexample: for a single 128-byte label (well within the
claimed ≤ 255 bound) the query is one byte longer than claimed, because
the length mark occupies two bytes. -/
theorem build_query_length_fails_long_label :
    (∀ l ∈ splitDots (List.replicate 128 97), l.length ≤ 255) ∧
    ¬ (build_query 0 (List.replicate 128 97) 1).length =
        12 + (((splitDots (List.replicate 128 97)).map List.length).sum +
          (splitDots (List.replicate 128 97)).length + 1) + 4 := by decide

/-- C4: the code's actual behaviour at the boundary.  A single label of
exactly 255 bytes is encoded with the two-byte mark 0xC3 0xBF (not the
single byte 0xFF); a single label of 256 bytes wraps (256 % 256 = 0) to a
0x00 mark with no error — the code has no `EncodingError` and never
fails. -/
theorem encode_label_cast_behavior :
    DomainName.encode_dns_name (List.replicate 255 97) =
      [195, 191] ++ List.replicate 255 97 ++ [0] ∧
    DomainName.encode_dns_name (List.replicate 256 97) =
      [0] ++ List.replicate 256 97 ++ [0] := by decide

/-- C10: for every id, name, and in-range (`u16`) record type, bytes 2–11
of the query are the fixed header tail 0x0100 0x0001 0x0000 0x0000 0x0000,
and the last four bytes are the record type (big-endian) followed by
0x0001 (`CLASS_IN`), independent of id and name. -/
theorem build_query_fixed_fields (id : Nat) (s : List Nat) (t : Nat)
    (ht : t < 65536) :
    ((build_query id s t).drop 2).take 10 = [1, 0, 0, 1, 0, 0, 0, 0, 0, 0] ∧
    (build_query id s t).drop ((build_query id s t).length - 4) =
      [t / 256, t % 256, 0, 1] := by
  have et : t / 256 % 256 = t / 256 := Nat.mod_eq_of_lt (by omega)
  have hdec : build_query id s t =
      (toBeBytes16 id ++ [1, 0, 0, 1, 0, 0, 0, 0, 0, 0] ++
          DomainName.encode_dns_name s) ++ [t / 256, t % 256, 0, 1] := by
    simp [build_query, DnsHeader.to_bytes, DnsQuestion.to_bytes, toBeBytes16,
      RECURSION_DESIRED, CLASS_IN, et]
  constructor
  · simp [build_query, DnsHeader.to_bytes, DnsQuestion.to_bytes, toBeBytes16,
      RECURSION_DESIRED, CLASS_IN]
  · rw [hdec]
    have hlen : ((toBeBytes16 id ++ [1, 0, 0, 1, 0, 0, 0, 0, 0, 0] ++
          DomainName.encode_dns_name s) ++ [t / 256, t % 256, 0, 1]).length - 4 =
        (toBeBytes16 id ++ [1, 0, 0, 1, 0, 0, 0, 0, 0, 0] ++
          DomainName.encode_dns_name s).length := by
      simp; omega
    rw [hlen, List.drop_left]

/-- C10 witness at id 0, name "a", type 1. -/
theorem build_query_fixed_fields_witness :
    ((build_query 0 [97] 1).drop 2).take 10 = [1, 0, 0, 1, 0, 0, 0, 0, 0, 0] ∧
    (build_query 0 [97] 1).drop ((build_query 0 [97] 1).length - 4) =
      [1 / 256, 1 % 256, 0, 1] :=
  build_query_fixed_fields 0 [97] 1 (by decide)
